import Mathlib

set_option maxHeartbeats 1000000

/-!
Verification of the ASFclaim service (src/index.js) against its specification.

The development shallowly embeds the code's pure logic:
* the two free-text response parsers `parseASFResult` and `parseASFStatus`,
  including a small backtracking matcher that mirrors the semantics of the
  two JavaScript regular expressions used by the source (leftmost match,
  greedy and lazy quantifiers, optional groups, case-insensitive flag);
* the per-code claim step and batch loop of `checkGame`;
* the webhook dispatch queue `processWebhookQueue` as an event trace;
* the connection gate `checkConnection` and the readiness loop
  `checkUserLoggedIn` as traces over stubbed query outcomes;
* the startup migration block.
-/

/-- JS regex `\s` character class (WhiteSpace plus LineTerminator). -/
def isJsSpace (c : Char) : Bool :=
  c == ' ' || c == '\t' || c == '\n' || c == '\r' ||
  c.toNat == 0x0b || c.toNat == 0x0c || c.toNat == 0xa0 || c.toNat == 0x1680 ||
  (0x2000 ≤ c.toNat && c.toNat ≤ 0x200a) ||
  c.toNat == 0x2028 || c.toNat == 0x2029 || c.toNat == 0x202f ||
  c.toNat == 0x205f || c.toNat == 0x3000 || c.toNat == 0xfeff

/-- JS regex `\w` character class. -/
def isJsWord (c : Char) : Bool :=
  ('a' ≤ c && c ≤ 'z') || ('A' ≤ c && c ≤ 'Z') || ('0' ≤ c && c ≤ '9') || c == '_'

/-- JS regex `\d` character class. -/
def isJsDigit (c : Char) : Bool :=
  '0' ≤ c && c ≤ '9'

/-- JS regex `.` (without the dotAll flag): any character except a line terminator. -/
def isDotChar (c : Char) : Bool :=
  !(c == '\n' || c == '\r' || c.toNat == 0x2028 || c.toNat == 0x2029)

/-- Character classes occurring in the two source regexes. `lit` is compared
case-insensitively because both source regexes carry the `i` flag. -/
inductive CClass
  | any
  | ws
  | word
  | digit
  | lit (c : Char)
  | set (cs : List Char)
deriving DecidableEq

/-- Test of a character class against one character. -/
def CClass.test : CClass → Char → Bool
  | .any, c => isDotChar c
  | .ws, c => isJsSpace c
  | .word, c => isJsWord c
  | .digit, c => isJsDigit c
  | .lit l, c => l.toLower == c.toLower
  | .set cs, c => cs.contains c

/-- Abstract syntax of the fragment of JS regexes used by the source: all
quantifiers in the two source regexes range over single-character classes,
so stars and pluses are restricted to `CClass` bodies. -/
inductive Rx
  | eps
  | ch (c : CClass)
  | seq (a b : Rx)
  | alt (a b : Rx)
  | opt (a : Rx)
  | starG (c : CClass)
  | plusG (c : CClass)
  | starL (c : CClass)
  | plusL (c : CClass)
  | grp (i : Nat) (a : Rx)
  | eos
deriving DecidableEq

/-- Sequencing of a list of regex pieces. -/
def Rx.cat : List Rx → Rx
  | [] => .eps
  | [r] => r
  | r :: rest => .seq r (Rx.cat rest)

/-- One case-insensitive literal character. -/
def Rx.lit (c : Char) : Rx :=
  .ch (.lit c)

/-- A case-insensitive literal string. -/
def Rx.lits (s : String) : Rx :=
  Rx.cat (s.data.map (fun c => Rx.ch (CClass.lit c)))

/-- Capture-group assignments recorded while matching; the head entry for an
index is the most recent (hence final) assignment. -/
abbrev Caps := List (Nat × List Char)

/-- Look up the final value of a capture group. -/
def getCap (caps : Caps) (i : Nat) : Option (List Char) :=
  (caps.find? (fun p => p.1 == i)).map (fun p => p.2)

/-- Length of the maximal run of characters of class `c` at the front of `s`. -/
def maxRun (c : CClass) : List Char → Nat
  | [] => 0
  | a :: rest => if c.test a then maxRun c rest + 1 else 0

/-- Greedy quantifier backtracking: try consuming `n` characters, then `n - 1`,
down to `0`, returning the first success of the continuation. -/
def tryFrom (s : List Char) (caps : Caps) (k : List Char → Caps → Option Caps) : Nat → Option Caps
  | 0 => k s caps
  | n + 1 =>
    match k (s.drop (n + 1)) caps with
    | some r => some r
    | none => tryFrom s caps k n

/-- Lazy quantifier backtracking: try consuming `n` characters, then `n + 1`,
up to `n + fuel`, returning the first success of the continuation. -/
def tryAsc (s : List Char) (caps : Caps) (k : List Char → Caps → Option Caps) (n : Nat) : Nat → Option Caps
  | 0 => k (s.drop n) caps
  | fuel + 1 =>
    match k (s.drop n) caps with
    | some r => some r
    | none => tryAsc s caps k (n + 1) fuel

/-- Backtracking matcher in continuation-passing style, mirroring the JS
engine's order of alternatives: alternation and optional try the left /
present branch first, greedy quantifiers consume maximally first, lazy
quantifiers consume minimally first. -/
def mrun : Rx → List Char → Caps → (List Char → Caps → Option Caps) → Option Caps
  | .eps, s, caps, k => k s caps
  | .ch _, [], _, _ => none
  | .ch c, a :: rest, caps, k => if c.test a then k rest caps else none
  | .seq a b, s, caps, k => mrun a s caps (fun s' caps' => mrun b s' caps' k)
  | .alt a b, s, caps, k =>
    match mrun a s caps k with
    | some r => some r
    | none => mrun b s caps k
  | .opt a, s, caps, k =>
    match mrun a s caps k with
    | some r => some r
    | none => k s caps
  | .starG c, s, caps, k => tryFrom s caps k (maxRun c s)
  | .plusG _, [], _, _ => none
  | .plusG c, a :: rest, caps, k =>
    if c.test a then tryFrom rest caps k (maxRun c rest) else none
  | .starL c, s, caps, k => tryAsc s caps k 0 (maxRun c s)
  | .plusL _, [], _, _ => none
  | .plusL c, a :: rest, caps, k =>
    if c.test a then tryAsc rest caps k 0 (maxRun c rest) else none
  | .grp i a, s, caps, k =>
    mrun a s caps (fun s' caps' => k s' ((i, s.take (s.length - s'.length)) :: caps'))
  | .eos, [], caps, k => k [] caps
  | .eos, _ :: _, _, _ => none

/-- Match a regex at a fixed position (the given suffix of the input). -/
def reMatchAt (re : Rx) (s : List Char) : Option Caps :=
  mrun re s [] (fun _ caps => some caps)

/-- Unanchored search: leftmost match, as JS `String.prototype.match`. -/
def reSearch (re : Rx) : List Char → Option Caps
  | [] => reMatchAt re []
  | a :: rest =>
    match reMatchAt re (a :: rest) with
    | some caps => some caps
    | none => reSearch re rest

/-- Line regex of `parseASFResult` (src/index.js:652), transcribed
piece by piece from
`/'?<(?<user>.+)>\s*(?:.*ID:\s+(?<id>\w+\/\d+)\s.+Status:\s+)?(?<status>.*?)(?:\\n|\n)?(?:'.*)?$/i`
with group 1 = user, group 2 = id, group 3 = status. -/
def claimLineRx : Rx :=
  Rx.cat [
    .opt (Rx.lit '\''),
    Rx.lit '<',
    .grp 1 (.plusG .any),
    Rx.lit '>',
    .starG .ws,
    .opt (Rx.cat [.starG .any, Rx.lits "ID:", .plusG .ws,
      .grp 2 (Rx.cat [.plusG .word, Rx.lit '/', .plusG .digit]),
      .ch .ws, .plusG .any, Rx.lits "Status:", .plusG .ws]),
    .grp 3 (.starL .any),
    .opt (.alt (Rx.lits "\\n") (Rx.lit '\n')),
    .opt (Rx.cat [Rx.lit '\'', .starG .any]),
    .eos
  ]

/-- Line regex of `parseASFStatus` (src/index.js:678), transcribed from
`/^.*<(?<user>.*)>\s*(?<status>.+?)[\.!?]*(?::.+)?(?:\\n.\s+\+)?$/i`
with group 1 = user, group 2 = status; the `^` anchor is realized by
matching at position 0 only (`reMatchAt`). -/
def statusLineRx : Rx :=
  Rx.cat [
    .starG .any,
    Rx.lit '<',
    .grp 1 (.starG .any),
    Rx.lit '>',
    .starG .ws,
    .grp 2 (.plusL .any),
    .starG (.set ['.', '!', '?']),
    .opt (Rx.cat [Rx.lit ':', .plusG .any]),
    .opt (Rx.cat [Rx.lits "\\n", .ch .any, .plusG .ws, Rx.lit '+']),
    .eos
  ]

/-- Named captures of the `parseASFResult` line regex on one line:
`(user, id, status)`. On a successful match groups 1 and 3 always
participate (they sit on the mandatory spine of the regex), so the final
fallback arm is unreachable. -/
def matchClaimLine (line : String) : Option (String × Option String × String) :=
  match reSearch claimLineRx line.data with
  | none => none
  | some caps =>
    match getCap caps 1, getCap caps 3 with
    | some u, some st => some (⟨u⟩, (getCap caps 2).map (fun l => ⟨l⟩), ⟨st⟩)
    | _, _ => none

/-- Named captures of the `parseASFStatus` line regex on one line:
`(user, status)`. As above, both groups always participate on a match. -/
def matchStatusLine (line : String) : Option (String × String) :=
  match reMatchAt statusLineRx line.data with
  | none => none
  | some caps =>
    match getCap caps 1, getCap caps 2 with
    | some u, some st => some (⟨u⟩, ⟨st⟩)
    | _, _ => none

/-- Split on the newline character, as JS `text.split("\n")`: an empty
input yields `[""]`, a trailing separator yields a trailing `""`. -/
def splitNl : List Char → List (List Char)
  | [] => [[]]
  | c :: rest =>
    if c = '\n' then [] :: splitNl rest
    else
      match splitNl rest with
      | l :: ls => (c :: l) :: ls
      | [] => [[c]]

/-- Lines of a response text (JS `result.split("\n")`). -/
def linesOf (s : String) : List String :=
  (splitNl s.data).map String.mk

/-- JS `String.prototype.trim`: strip JS whitespace from both ends. -/
def jsTrim (s : String) : String :=
  String.mk (((s.data.dropWhile isJsSpace).reverse.dropWhile isJsSpace).reverse)

/-- Per-account result entry of `parseASFResult` (src/index.js:654). -/
structure ClaimEntry where
  id : Option String
  status : String
deriving DecidableEq, Repr

/-- JS object property assignment `obj[k] = v` on a string-keyed object,
modelled on an association list that keeps first-insertion key order:
an existing key is overwritten in place, a new key is appended. -/
def setKey {α : Type} : List (String × α) → String → α → List (String × α)
  | [], k, v => [(k, v)]
  | (k', v') :: rest, k, v =>
    if k' == k then (k, v) :: rest else (k', v') :: setKey rest k v

/-- JS object property read `obj[k]`. -/
def lookupKey {α : Type} : List (String × α) → String → Option α
  | [], _ => none
  | (k', v) :: rest, k => if k' == k then some v else lookupKey rest k

/-- Keys of the modelled JS object, in insertion order. -/
def keys {α : Type} (m : List (String × α)) : List String :=
  m.map (fun p => p.1)

/-- The shared loop shape of both parsers (src/index.js:651 and 677): iterate
over the lines in order, skip lines whose regex does not match, and assign
the parsed entry to the object under the captured account name. -/
def insFold {α : Type} (f : String → Option (String × α)) (m : List (String × α)) : List String → List (String × α)
  | [] => m
  | line :: rest =>
    match f line with
    | none => insFold f m rest
    | some (u, v) => insFold f (setKey m u v) rest

/-- Entry written by one matching line of `parseASFResult`
(src/index.js:654-657), including the reclassification of the bare status
`"OK"` (JS `(matchRes[3] != "OK") ? matchRes[3] : "OK -> Not available for this account"`). -/
def claimLineEntry (line : String) : Option (String × ClaimEntry) :=
  match matchClaimLine line with
  | none => none
  | some (u, id?, st) =>
    some (u, { id := id?,
               status := if st == "OK" then "OK -> Not available for this account" else st })

/-- `parseASFResult` (src/index.js:648-661): split on newlines, parse each
line, last assignment per account wins. -/
def parseASFResult (result : String) : List (String × ClaimEntry) :=
  insFold claimLineEntry [] (linesOf result)

/-- The entry built from one line's captures `(user, id, status)`, with the
bare-`OK` reclassification, as stored by `parseASFResult`. -/
def claimEntryOf (t : String × Option String × String) : ClaimEntry :=
  { id := t.2.1,
    status := if t.2.2 == "OK" then "OK -> Not available for this account" else t.2.2 }

/-- Per-account entry of `parseASFStatus` (src/index.js:681-691). -/
structure StatusEntry where
  status : String
  isDone : Bool
deriving DecidableEq, Repr

/-- Result of `parseASFStatus` (src/index.js:672-675). -/
structure StatusInfo where
  user : List (String × StatusEntry)
  isDone : Bool
deriving DecidableEq, Repr

/-- Containment of `needle` as a contiguous subsequence of `hay`
(JS `String.prototype.includes`, case-sensitive). -/
def containsSeq (needle : List Char) : List Char → Bool
  | [] => needle.isEmpty
  | c :: rest => needle.isPrefixOf (c :: rest) || containsSeq needle rest

/-- JS `hay.includes(needle)`. -/
def hasSub (needle hay : String) : Bool :=
  containsSeq needle.data hay.data

/-- JS `status.match(/Bot is connecting to Steam network/i)` truthiness
(src/index.js:688): case-insensitive substring search for a literal. -/
def statusConnecting (st : String) : Bool :=
  containsSeq ("Bot is connecting to Steam network".data.map Char.toLower)
    (st.data.map Char.toLower)

/-- Entry written by one matching line of `parseASFStatus`: JS first sets
`isDone: true` and then flips it to `false` when the connecting pattern
matches, so the written flag is the negated pattern test. -/
def statusLineEntry (line : String) : Option (String × StatusEntry) :=
  match matchStatusLine line with
  | none => none
  | some (u, st) => some (u, { status := st, isDone := !statusConnecting st })

/-- Loop of `parseASFStatus` (src/index.js:677-693), threading the per-user
object and the aggregate `isDone` flag (initially `true`, forced to `false`
by every matching line whose status matches the connecting pattern). -/
def parseASFStatusGo (user : List (String × StatusEntry)) (isDone : Bool) : List String → StatusInfo
  | [] => ⟨user, isDone⟩
  | line :: rest =>
    match matchStatusLine line with
    | none => parseASFStatusGo user isDone rest
    | some (u, st) =>
      parseASFStatusGo (setKey user u ⟨st, !statusConnecting st⟩)
        (isDone && !statusConnecting st) rest

/-- `parseASFStatus` (src/index.js:670-696). -/
def parseASFStatus (result : String) : StatusInfo :=
  parseASFStatusGo [] true (linesOf result)

/-! ## Claim cycle (`checkGame`, src/index.js:196-301) -/

/-- Candidate code list from the fetched document (src/index.js:208):
split on newlines, trim, drop empties. -/
def codesOf (content : String) : List String :=
  ((linesOf content).map jsTrim).filter (fun c => c ≠ "")

/-- New-code computation (src/index.js:210):
`codes.filter(code => !processedLicenses.includes(code))`. -/
def newCodesOf (candidates processedLicenses : List String) : List String :=
  candidates.filter (fun code => !processedLicenses.contains code)

/-- Batch selection (src/index.js:213-215): reverse, take at most 40. -/
def batchOf (candidates processedLicenses : List String) : List String :=
  ((newCodesOf candidates processedLicenses).reverse).take 40

/-- Severity of a log line / notification. -/
inductive Severity
  | info
  | warn
  | error
  | success
deriving DecidableEq, Repr

/-- Outcome of the agent's `POST /Api/Command` call for one code, at the
point where `checkGame` branches on it: a JSON body with `Success: true`
and a `Result` text, a body with `Success` false, or a rejected fetch. -/
inductive AgentResponse
  | ok (Result : String) (Message : String)
  | nonSuccess
  | transportError
deriving DecidableEq, Repr

/-- Rate-limit test of `checkGame` (src/index.js:237):
`Object.values(asfResult).some(result => result.status.includes('RateLimitExceeded'))`. -/
def hasRateLimit (result : String) : Bool :=
  (parseASFResult result).any (fun p => hasSub "RateLimitExceeded" p.2.status)

/-- Result of processing one code of the batch. -/
inductive StepOutcome
  | next (processedLicenses : List String) (note : Severity × String)
  | fatal (exitCode : Nat) (note : Severity × String)
deriving DecidableEq, Repr

/-- One iteration of the batch loop of `checkGame` (src/index.js:234-273):
on a success body, a parsed `RateLimitExceeded` keeps the code out of the
processed list and emits an error webhook; otherwise the code is pushed and
a success webhook emitted; a non-success body or a transport error emits an
error webhook and exits the process with code 1. -/
def processCode (processedLicenses : List String) (code : String) (resp : AgentResponse) : StepOutcome :=
  match resp with
  | .ok result _ =>
    if hasRateLimit result then
      .next processedLicenses
        (.error, "Rate limit exceeded while processing package. Will retry in next run.")
    else
      .next (processedLicenses ++ [code])
        (.success, "Processed a new package!")
  | .nonSuccess =>
    .fatal 1 (.error, "Got non-success result from ASF, check the logs for more information.")
  | .transportError =>
    .fatal 1 (.error, "An error occurred while connecting to ASF, check the logs for more information.")

/-- The batch loop: runs `processCode` over the batch in order, stopping at
the first fatal outcome (the process exits there). Returns the final
processed list, the emitted notifications in order, and whether the loop
ended fatally. -/
def runBatch (processedLicenses : List String) : List (String × AgentResponse) → List String × List (Severity × String) × Bool
  | [] => (processedLicenses, [], false)
  | (code, resp) :: rest =>
    match processCode processedLicenses code resp with
    | .next p note =>
      let r := runBatch p rest
      (r.1, note :: r.2.1, r.2.2)
    | .fatal _ note => (processedLicenses, [note], true)

/-! ## Webhook dispatch queue (`processWebhookQueue`, src/index.js:80-100) -/

/-- One queued webhook job; `deliverOk` stubs the injected delivery
capability's outcome (`response.ok` and no thrown transport error). -/
structure WebhookJob where
  id : Nat
  deliverOk : Bool
deriving DecidableEq, Repr

/-- Observable events of the dispatcher: a delivery attempt (whose `ok`
also tells whether the job's promise resolved or rejected) and a wait. -/
inductive QEvent
  | attempt (id : Nat) (ok : Bool)
  | wait (ms : Nat)
deriving DecidableEq, Repr

/-- Trace of `processWebhookQueue` draining a queue (src/index.js:84-98):
jobs are shifted from the front one at a time; after every attempt —
resolved or rejected — the dispatcher sleeps 0.2 s (200 ms) before the
next iteration. -/
def processWebhookQueue : List WebhookJob → List QEvent
  | [] => []
  | j :: rest => .attempt j.id j.deliverOk :: .wait 200 :: processWebhookQueue rest

/-- Delivery attempts of a trace, in order. -/
def attemptsOf (evs : List QEvent) : List (Nat × Bool) :=
  evs.filterMap (fun e => match e with
    | .attempt i ok => some (i, ok)
    | .wait _ => none)

/-- Start instants of the delivery attempts of a trace, counting waits and
treating attempts as instantaneous (a lower bound on real elapsed time). -/
def startTimes : List QEvent → Nat → List Nat
  | [], _ => []
  | .attempt _ _ :: rest, t => t :: startTimes rest t
  | .wait ms :: rest, t => startTimes rest (t + ms)

/-! ## Connection gate (`checkConnection`, src/index.js:307-355) -/

/-- Events of the connection gate trace. -/
inductive ConnEvent
  | attempt (n : Nat) (ok : Bool)
  | wait (secs : Nat)
  | exited (code : Nat)
  | returned
deriving DecidableEq, Repr

/-- Loop body of `checkConnection` with `attemptNumber = i`, `maxRetries = 5`,
`retryDelay = 5` as in the source: exit 1 once `i > 5`, otherwise attempt,
return on success, else warn, sleep 5 s and retry. `results i` stubs the
outcome of the i-th `!stats` command round-trip. Six loop entries suffice,
so the recursion is fueled with 6. -/
def checkConnectionGo (results : Nat → Bool) : Nat → Nat → List ConnEvent
  | _, 0 => []
  | i, fuel + 1 =>
    if i > 5 then [.exited 1]
    else if results i then [.attempt i true, .returned]
    else .attempt i false :: .wait 5 :: checkConnectionGo results (i + 1) fuel

/-- `checkConnection`: attempts are numbered from 1. -/
def checkConnection (results : Nat → Bool) : List ConnEvent :=
  checkConnectionGo results 1 6

/-- Failed attempts `i, i+1, ..., i+m-1`, each followed by the 5 s delay. -/
def failEvents : Nat → Nat → List ConnEvent
  | _, 0 => []
  | i, m + 1 => .attempt i false :: .wait 5 :: failEvents (i + 1) m

/-! ## Readiness loop (`checkUserLoggedIn`, src/index.js:361-408) -/

/-- Outcome of one `!status asf` query: the parsed JSON body (with its
`Success` flag and `Result` text) or a rejected fetch. -/
inductive QueryOutcome
  | response (Success : Bool) (Result : String)
  | transportError
deriving DecidableEq, Repr

/-- What one iteration of the readiness loop does with a query outcome. -/
inductive PhaseBStep
  | raises
  | completes
  | retries (sleepSecs : Nat)
deriving DecidableEq, Repr

/-- One iteration of `checkUserLoggedIn`: a rejected fetch re-throws
(src/index.js:381-385); a body failing `result && result.Success &&
result.Result` (an empty `Result` is falsy) throws (src/index.js:393-396);
otherwise the body is parsed with `parseASFStatus` and the loop either
breaks (`isDone`) or sleeps 10 s and retries. -/
def phaseBStep : QueryOutcome → PhaseBStep
  | .transportError => .raises
  | .response ok result =>
    if ok && result != "" then
      if (parseASFStatus result).isDone then .completes else .retries 10
    else .raises

/-- Fueled observation of the unbounded readiness loop. -/
inductive PhaseBResult
  | raised (attemptsMade : Nat)
  | completed (attemptsMade : Nat)
  | stillPolling (attemptsMade : Nat)
deriving DecidableEq, Repr

/-- Run the readiness loop from attempt index `i` with the given fuel;
`queries i` stubs the outcome of the i-th status query. -/
def runPhaseBGo (queries : Nat → QueryOutcome) : Nat → Nat → PhaseBResult
  | i, 0 => .stillPolling i
  | i, fuel + 1 =>
    match phaseBStep (queries i) with
    | .raises => .raised (i + 1)
    | .completes => .completed (i + 1)
    | .retries _ => runPhaseBGo queries (i + 1) fuel

/-- The readiness loop observed for `fuel` iterations. -/
def runPhaseB (queries : Nat → QueryOutcome) (fuel : Nat) : PhaseBResult :=
  runPhaseBGo queries 0 fuel

/-! ## Startup migration (src/index.js:146-170) -/

/-- Digits at the front of a character list. -/
def leadingDigits : List Char → List Char
  | [] => []
  | c :: rest => if isJsDigit c then c :: leadingDigits rest else []

/-- Numeric value of a digit list, `none` when empty. -/
def digitsVal : List Char → Option Nat
  | [] => none
  | ds => some (ds.foldl (fun a c => a * 10 + (c.toNat - 48)) 0)

/-- JS `parseInt(s, 10)`: skip leading whitespace, optional sign, then the
longest digit prefix; `NaN` (here `none`) when no digit follows. -/
def parseIntJS (s : String) : Option Int :=
  match s.data.dropWhile isJsSpace with
  | '-' :: rest => (digitsVal (leadingDigits rest)).map (fun n => -(n : Int))
  | '+' :: rest => (digitsVal (leadingDigits rest)).map (fun n => (n : Int))
  | cs => (digitsVal (leadingDigits cs)).map (fun n => (n : Int))

/-- JS `array.slice(0, n)`: `n ≥ 0` takes the first `n`, a negative `n`
counts from the end (clamped at 0). -/
def jsSlice (l : List String) (n : Int) : List String :=
  if 0 ≤ n then l.take n.toNat else l.take (l.length - (-n).toNat)

/-- Worker for `dedupFirst`, carrying the set of values seen so far. -/
def dedupFirstGo (seen : List String) : List String → List String
  | [] => []
  | x :: rest =>
    if seen.contains x then dedupFirstGo seen rest
    else x :: dedupFirstGo (x :: seen) rest

/-- JS `[...new Set(l)]`: deduplicate keeping first occurrences in order. -/
def dedupFirst (l : List String) : List String :=
  dedupFirstGo [] l

/-- State of the `lastlength` marker file at startup. -/
inductive MarkerFile
  | absent
  | withContent (s : String)
deriving DecidableEq, Repr

/-- Outcome of the Gist fetch made by the migration block. -/
inductive GistFetch
  | ok (content : String)
  | failed
deriving DecidableEq, Repr

/-- Observable outcome of the migration block. -/
structure MigrationResult where
  processedLicenses : List String
  markerDeleted : Bool
  migrationWarned : Bool
deriving DecidableEq, Repr

/-- The migration block (src/index.js:146-170): a missing marker file makes
`readFileSync` throw into the silent outer catch; an unparsable content
(`parseInt` NaN) skips the `if`; otherwise the Gist is fetched — on success
the first `lastLength` codes are unioned into the processed list, on
failure a warning is logged and nothing is backfilled — and in either case
`unlinkSync` then deletes the marker. -/
def runMigration (marker : MarkerFile) (fetch : GistFetch) (processedLicenses : List String) : MigrationResult :=
  match marker with
  | .absent => ⟨processedLicenses, false, false⟩
  | .withContent s =>
    match parseIntJS (jsTrim s) with
    | none => ⟨processedLicenses, false, false⟩
    | some lastLength =>
      match fetch with
      | .ok content =>
        ⟨dedupFirst (processedLicenses ++ jsSlice (codesOf content) lastLength), true, false⟩
      | .failed => ⟨processedLicenses, true, true⟩


/-! ## Lemmas about the JS-object model -/

theorem lookupKey_setKey {α : Type} (m : List (String × α)) (k u : String) (v : α) :
    lookupKey (setKey m k v) u = if k == u then some v else lookupKey m u := by
  induction m with
  | nil => simp [setKey, lookupKey]
  | cons p rest ih =>
    obtain ⟨k', v'⟩ := p
    by_cases hk : k' = k
    · subst hk
      by_cases hu : k' = u
      · subst hu
        simp [setKey, lookupKey]
      · have hu' : (k' == u) = false := beq_eq_false_iff_ne.mpr hu
        simp [setKey, lookupKey, hu']
    · have hk' : (k' == k) = false := beq_eq_false_iff_ne.mpr hk
      by_cases hu : k' = u
      · subst hu
        have hku : (k == k') = false := beq_eq_false_iff_ne.mpr (fun h => hk h.symm)
        simp [setKey, lookupKey, hk', hku, ih]
      · have hu' : (k' == u) = false := beq_eq_false_iff_ne.mpr hu
        simp [setKey, lookupKey, hk', hu', ih]

theorem mem_keys_setKey {α : Type} (m : List (String × α)) (k u : String) (v : α) :
    u ∈ keys (setKey m k v) ↔ u = k ∨ u ∈ keys m := by
  induction m with
  | nil => simp [setKey, keys]
  | cons p rest ih =>
    obtain ⟨k', v'⟩ := p
    by_cases hk : k' = k
    · subst hk
      simp [setKey, keys]
    · have hk' : (k' == k) = false := beq_eq_false_iff_ne.mpr hk
      simp only [setKey, hk', Bool.false_eq_true, if_false, keys, List.map_cons, List.mem_cons]
      rw [show (List.map (fun p => p.1) (setKey rest k v)) = keys (setKey rest k v) from rfl, ih]
      rw [show (List.map (fun p => p.1) rest) = keys rest from rfl]
      tauto

theorem nodup_keys_setKey {α : Type} (m : List (String × α)) (k : String) (v : α)
    (h : (keys m).Nodup) : (keys (setKey m k v)).Nodup := by
  induction m with
  | nil => simp [setKey, keys]
  | cons p rest ih =>
    obtain ⟨k', v'⟩ := p
    simp only [keys, List.map_cons, List.nodup_cons] at h
    by_cases hk : k' = k
    · subst hk
      simp only [setKey, beq_self_eq_true, if_true, keys, List.map_cons, List.nodup_cons]
      exact h
    · have hk' : (k' == k) = false := beq_eq_false_iff_ne.mpr hk
      simp only [setKey, hk', Bool.false_eq_true, if_false, keys, List.map_cons, List.nodup_cons]
      constructor
      · intro hmem
        rcases (mem_keys_setKey rest k k' v).mp hmem with h' | h'
        · exact hk h'
        · exact h.1 h'
      · exact ih h.2

theorem mem_setKey {α : Type} (m : List (String × α)) (k u : String) (v e : α)
    (h : (u, e) ∈ setKey m k v) : (u = k ∧ e = v) ∨ (u, e) ∈ m := by
  induction m with
  | nil =>
    simp only [setKey, List.mem_singleton, Prod.mk.injEq] at h
    exact Or.inl h
  | cons p rest ih =>
    obtain ⟨k', v'⟩ := p
    by_cases hk : k' = k
    · subst hk
      simp only [setKey, beq_self_eq_true, if_true, List.mem_cons, Prod.mk.injEq] at h
      rcases h with h | h
      · exact Or.inl h
      · exact Or.inr (List.mem_cons_of_mem _ h)
    · have hk' : (k' == k) = false := beq_eq_false_iff_ne.mpr hk
      simp only [setKey, hk', Bool.false_eq_true, if_false, List.mem_cons] at h
      rcases h with h | h
      · exact Or.inr (List.mem_cons.mpr (Or.inl h))
      · rcases ih h with h' | h'
        · exact Or.inl h'
        · exact Or.inr (List.mem_cons_of_mem _ h')

theorem mem_of_lookupKey {α : Type} (m : List (String × α)) (u : String) (v : α)
    (h : lookupKey m u = some v) : (u, v) ∈ m := by
  induction m with
  | nil => simp [lookupKey] at h
  | cons p rest ih =>
    obtain ⟨k', v'⟩ := p
    by_cases hu : k' = u
    · subst hu
      simp only [lookupKey, beq_self_eq_true, if_true, Option.some.injEq] at h
      subst h
      exact List.mem_cons_self _ _
    · have hu' : (k' == u) = false := beq_eq_false_iff_ne.mpr hu
      simp only [lookupKey, hu', Bool.false_eq_true, if_false] at h
      exact List.mem_cons_of_mem _ (ih h)

theorem lookupKey_of_mem {α : Type} (m : List (String × α)) (u : String) (v : α)
    (hnd : (keys m).Nodup) (h : (u, v) ∈ m) : lookupKey m u = some v := by
  induction m with
  | nil => simp at h
  | cons p rest ih =>
    obtain ⟨k', v'⟩ := p
    simp only [keys, List.map_cons, List.nodup_cons] at hnd
    rcases List.mem_cons.mp h with h' | h'
    · injection h' with h1 h2
      subst h1
      subst h2
      simp [lookupKey]
    · have hu : k' ≠ u := by
        intro hk
        subst hk
        exact hnd.1 (List.mem_map.mpr ⟨(k', v), h', rfl⟩)
      have hu' : (k' == u) = false := beq_eq_false_iff_ne.mpr hu
      simp only [lookupKey, hu', Bool.false_eq_true, if_false]
      exact ih hnd.2 h'

theorem keys_nodup_insFold {α : Type} (f : String → Option (String × α)) :
    ∀ (lines : List String) (m : List (String × α)), (keys m).Nodup →
    (keys (insFold f m lines)).Nodup := by
  intro lines
  induction lines with
  | nil => intro m h; simpa [insFold] using h
  | cons line rest ih =>
    intro m h
    cases hf : f line with
    | none =>
      simp only [insFold, hf]
      exact ih m h
    | some p =>
      obtain ⟨u', v⟩ := p
      simp only [insFold, hf]
      exact ih (setKey m u' v) (nodup_keys_setKey m u' v h)

theorem mem_keys_insFold {α : Type} (f : String → Option (String × α)) :
    ∀ (lines : List String) (m : List (String × α)) (u : String),
    u ∈ keys (insFold f m lines) ↔ u ∈ keys m ∨ ∃ line ∈ lines, ∃ v, f line = some (u, v) := by
  intro lines
  induction lines with
  | nil => intro m u; simp [insFold]
  | cons line rest ih =>
    intro m u
    cases hf : f line with
    | none =>
      simp only [insFold, hf]
      rw [ih m u]
      constructor
      · rintro (h | ⟨l, hl, w, hw⟩)
        · exact Or.inl h
        · exact Or.inr ⟨l, List.mem_cons_of_mem _ hl, w, hw⟩
      · rintro (h | ⟨l, hl, w, hw⟩)
        · exact Or.inl h
        · rcases List.mem_cons.mp hl with h' | h'
          · subst h'
            rw [hf] at hw
            cases hw
          · exact Or.inr ⟨l, h', w, hw⟩
    | some p =>
      obtain ⟨u', v⟩ := p
      simp only [insFold, hf]
      rw [ih (setKey m u' v) u]
      rw [mem_keys_setKey]
      constructor
      · rintro ((h | h) | ⟨l, hl, w, hw⟩)
        · exact Or.inr ⟨line, List.mem_cons_self _ _, v, h ▸ hf⟩
        · exact Or.inl h
        · exact Or.inr ⟨l, List.mem_cons_of_mem _ hl, w, hw⟩
      · rintro (h | ⟨l, hl, w, hw⟩)
        · exact Or.inl (Or.inr h)
        · rcases List.mem_cons.mp hl with h' | h'
          · subst h'
            rw [hf] at hw
            injection hw with hw'
            exact Or.inl (Or.inl (congrArg Prod.fst hw').symm)
          · exact Or.inr ⟨l, h', w, hw⟩

theorem mem_insFold {α : Type} (f : String → Option (String × α)) :
    ∀ (lines : List String) (m : List (String × α)) (u : String) (v : α),
    (u, v) ∈ insFold f m lines → (u, v) ∈ m ∨ ∃ line ∈ lines, f line = some (u, v) := by
  intro lines
  induction lines with
  | nil =>
    intro m u v h
    exact Or.inl h
  | cons line rest ih =>
    intro m u v h
    cases hf : f line with
    | none =>
      rw [insFold, hf] at h
      rcases ih m u v h with h' | ⟨l, hl, hw⟩
      · exact Or.inl h'
      · exact Or.inr ⟨l, List.mem_cons_of_mem _ hl, hw⟩
    | some p =>
      obtain ⟨u', w⟩ := p
      rw [insFold, hf] at h
      rcases ih (setKey m u' w) u v h with h' | ⟨l, hl, hw⟩
      · rcases mem_setKey m u' u w v h' with ⟨h1, h2⟩ | h''
        · subst h1
          subst h2
          exact Or.inr ⟨line, List.mem_cons_self _ _, hf⟩
        · exact Or.inl h''
      · exact Or.inr ⟨l, List.mem_cons_of_mem _ hl, hw⟩

theorem lookupKey_insFold {α : Type} (f : String → Option (String × α)) :
    ∀ (lines : List String) (m : List (String × α)) (u : String),
    lookupKey (insFold f m lines) u =
      (((lines.filterMap f).filter (fun p => p.1 == u)).getLast?).elim
        (lookupKey m u) (fun p => some p.2) := by
  intro lines
  induction lines with
  | nil => intro m u; simp [insFold]
  | cons line rest ih =>
    intro m u
    cases hf : f line with
    | none =>
      simp only [insFold, hf, List.filterMap_cons]
      exact ih m u
    | some p =>
      obtain ⟨u', v⟩ := p
      simp only [insFold, hf, List.filterMap_cons]
      rw [ih (setKey m u' v) u]
      by_cases hu : u' = u
      · subst hu
        simp only [List.filter_cons, beq_self_eq_true, if_true, List.getLast?_cons]
        rw [lookupKey_setKey]
        simp only [beq_self_eq_true, if_true]
        cases hL : (List.filter (fun p => p.1 == u') (List.filterMap f rest)).getLast? with
        | none => simp [hL]
        | some q => simp [hL]
      · have hu' : (u' == u) = false := beq_eq_false_iff_ne.mpr hu
        simp only [List.filter_cons, hu', Bool.false_eq_true, if_false]
        rw [lookupKey_setKey]
        simp [hu']

theorem parseASFStatusGo_user :
    ∀ (lines : List String) (m : List (String × StatusEntry)) (b : Bool),
    (parseASFStatusGo m b lines).user = insFold statusLineEntry m lines := by
  intro lines
  induction lines with
  | nil => intro m b; rfl
  | cons line rest ih =>
    intro m b
    cases hf : matchStatusLine line with
    | none =>
      simp only [parseASFStatusGo, hf, insFold, statusLineEntry, Option.map_none']
      exact ih m b
    | some p =>
      obtain ⟨u, st⟩ := p
      simp only [parseASFStatusGo, hf, insFold, statusLineEntry, Option.map_some']
      exact ih _ _

theorem parseASFStatusGo_isDone :
    ∀ (lines : List String) (m : List (String × StatusEntry)) (b : Bool),
    (parseASFStatusGo m b lines).isDone =
      (b && ((lines.filterMap matchStatusLine).all (fun p => !statusConnecting p.2))) := by
  intro lines
  induction lines with
  | nil => intro m b; simp [parseASFStatusGo]
  | cons line rest ih =>
    intro m b
    cases hf : matchStatusLine line with
    | none =>
      simp only [parseASFStatusGo, hf, List.filterMap_cons]
      exact ih m b
    | some p =>
      obtain ⟨u, st⟩ := p
      simp only [parseASFStatusGo, hf, List.filterMap_cons, List.all_cons]
      rw [ih]
      ac_rfl

/-! ## Webhook queue lemmas -/

theorem attemptsOf_processWebhookQueue (jobs : List WebhookJob) :
    attemptsOf (processWebhookQueue jobs) = jobs.map (fun j => (j.id, j.deliverOk)) := by
  induction jobs with
  | nil => rfl
  | cons j rest ih => simp [processWebhookQueue, attemptsOf, List.filterMap_cons] at ih ⊢; exact ih

theorem startTimes_processWebhookQueue :
    ∀ (jobs : List WebhookJob) (t : Nat),
    startTimes (processWebhookQueue jobs) t = (List.range jobs.length).map (fun k => t + 200 * k) := by
  intro jobs
  induction jobs with
  | nil => intro t; rfl
  | cons j rest ih =>
    intro t
    simp only [processWebhookQueue, startTimes, ih (t + 200), List.length_cons,
      List.range_succ_eq_map, List.map_cons, List.map_map]
    refine List.cons_eq_cons.mpr ⟨by omega, ?_⟩
    exact List.map_congr_left (fun a _ => by simp [Function.comp]; omega)

/-- Claim C5: jobs on the webhook queue are attempted one at a time in exact
enqueue (FIFO) order, each attempt is followed by a 200 ms wait before the
next starts (so the n-th attempt starts at 200·n ms and N deliveries span at
least (N−1)·200 ms), and a failed delivery rejects only that job's promise
(its own `ok` flag) while every later job is still attempted. -/
theorem claim_C5 : ∀ (jobs : List WebhookJob),
    attemptsOf (processWebhookQueue jobs) = jobs.map (fun j => (j.id, j.deliverOk)) ∧
    startTimes (processWebhookQueue jobs) 0 = (List.range jobs.length).map (fun k => 200 * k) ∧
    ∀ n, jobs.length = n + 1 →
      (startTimes (processWebhookQueue jobs) 0)[n]? = some (200 * n) ∧
      (startTimes (processWebhookQueue jobs) 0)[0]? = some 0 ∧
      n * 200 ≤ 200 * n := by
  intro jobs
  have hst : startTimes (processWebhookQueue jobs) 0 = (List.range jobs.length).map (fun k => 200 * k) := by
    rw [startTimes_processWebhookQueue]
    exact List.map_congr_left (fun a _ => by omega)
  refine ⟨attemptsOf_processWebhookQueue jobs, hst, ?_⟩
  intro n hlen
  rw [hst, hlen]
  refine ⟨?_, ?_, by omega⟩
  · rw [List.getElem?_map, List.getElem?_range (by omega)]
    rfl
  · rw [List.getElem?_map, List.getElem?_range (by omega)]
    rfl

/-- Claim C5 witness at a concrete three-job queue containing a failing job. -/
theorem claim_C5_witness :
    attemptsOf (processWebhookQueue [⟨0, true⟩, ⟨1, false⟩, ⟨2, true⟩]) =
      [(0, true), (1, false), (2, true)] ∧
    (startTimes (processWebhookQueue [⟨0, true⟩, ⟨1, false⟩, ⟨2, true⟩]) 0)[2]? = some 400 := by
  refine ⟨(claim_C5 [⟨0, true⟩, ⟨1, false⟩, ⟨2, true⟩]).1, ?_⟩
  have h := ((claim_C5 [⟨0, true⟩, ⟨1, false⟩, ⟨2, true⟩]).2.2 2 rfl).1
  simpa using h

/-! ## Connection gate -/

/-- Claim C6: when every reachability attempt fails, `checkConnection` makes
exactly 5 attempts with a 5-second delay between them and then exits the
process with code 1; when the k-th attempt (1 ≤ k ≤ 5) is the first success,
it returns right after that attempt with no further attempts. -/
theorem claim_C6 : ∀ (results : Nat → Bool),
    ((∀ i, i ≤ 5 → results i = false) →
      checkConnection results =
        [.attempt 1 false, .wait 5, .attempt 2 false, .wait 5, .attempt 3 false, .wait 5,
         .attempt 4 false, .wait 5, .attempt 5 false, .wait 5, .exited 1]) ∧
    (∀ k, 1 ≤ k → k ≤ 5 → results k = true → (∀ i, i < k → results i = false) →
      checkConnection results = failEvents 1 (k - 1) ++ [.attempt k true, .returned]) := by
  intro results
  constructor
  · intro h
    have h1 := h 1 (by omega)
    have h2 := h 2 (by omega)
    have h3 := h 3 (by omega)
    have h4 := h 4 (by omega)
    have h5 := h 5 (by omega)
    simp [checkConnection, checkConnectionGo, h1, h2, h3, h4, h5]
  · intro k hk1 hk5 hk hlt
    interval_cases k
    · simp [checkConnection, checkConnectionGo, hk, failEvents]
    · have h1 := hlt 1 (by omega)
      simp [checkConnection, checkConnectionGo, h1, hk, failEvents]
    · have h1 := hlt 1 (by omega)
      have h2 := hlt 2 (by omega)
      simp [checkConnection, checkConnectionGo, h1, h2, hk, failEvents]
    · have h1 := hlt 1 (by omega)
      have h2 := hlt 2 (by omega)
      have h3 := hlt 3 (by omega)
      simp [checkConnection, checkConnectionGo, h1, h2, h3, hk, failEvents]
    · have h1 := hlt 1 (by omega)
      have h2 := hlt 2 (by omega)
      have h3 := hlt 3 (by omega)
      have h4 := hlt 4 (by omega)
      simp [checkConnection, checkConnectionGo, h1, h2, h3, h4, hk, failEvents]

/-- Claim C6 witness: the all-fail stub and a stub succeeding at attempt 3. -/
theorem claim_C6_witness :
    checkConnection (fun _ => false) =
      [.attempt 1 false, .wait 5, .attempt 2 false, .wait 5, .attempt 3 false, .wait 5,
       .attempt 4 false, .wait 5, .attempt 5 false, .wait 5, .exited 1] ∧
    checkConnection (fun i => i == 3) = failEvents 1 2 ++ [.attempt 3 true, .returned] := by
  constructor
  · exact (claim_C6 (fun _ => false)).1 (fun i _ => rfl)
  · exact (claim_C6 (fun i => i == 3)).2 3 (by omega) (by omega) (by decide)
      (fun i hi => beq_eq_false_iff_ne.mpr (by omega))

/-! ## New-code diff and batch -/

/-- Claim C8 counterexample: the source does not deduplicate within the
fetched list — with an empty processed set the diff of
`["a/100", "a/200", "a/100"]` keeps the duplicate, so it is not
`["a/100", "a/200"]` as the claim states. -/
theorem claim_C8_counterexample :
    newCodesOf ["a/100", "a/200", "a/100"] [] ≠ ["a/100", "a/200"] := by
  decide

/-- Claim C8 (amended): `newCodes` is the order-preserving filter of the
candidate list dropping exactly the codes in the processed set (by exact
string equality), preserving duplicates of unprocessed codes; the batch is a
prefix of the reversed `newCodes` of length at most 40. In particular, for
candidates `["a/100", "a/200", "a/100"]` and empty processed set, the diff
yields `["a/100", "a/200", "a/100"]` with the duplicate preserved. -/
theorem claim_C8 : ∀ (candidates processedLicenses : List String) (c : String),
    List.count c (newCodesOf candidates processedLicenses) =
      (if processedLicenses.contains c then 0 else List.count c candidates) ∧
    (newCodesOf candidates processedLicenses).Sublist candidates ∧
    (batchOf candidates processedLicenses).length ≤ 40 ∧
    (batchOf candidates processedLicenses) <+: (newCodesOf candidates processedLicenses).reverse ∧
    newCodesOf ["a/100", "a/200", "a/100"] [] = ["a/100", "a/200", "a/100"] ∧
    batchOf ["a/100", "a/200", "a/100"] [] = ["a/100", "a/200", "a/100"] := by
  intro candidates processedLicenses c
  refine ⟨?_, List.filter_sublist candidates, ?_, List.take_prefix 40 _, by decide, by decide⟩
  · by_cases hc : processedLicenses.contains c
    · rw [if_pos hc]
      rw [List.count_eq_zero]
      intro hmem
      have := (List.mem_filter.mp hmem).2
      simp only [hc, Bool.not_true] at this
      cases this
    · rw [if_neg hc]
      exact List.count_filter (by simpa using hc)
  · calc (batchOf candidates processedLicenses).length
        ≤ 40 := by
          simp only [batchOf]
          exact (List.length_take_le 40 _).trans (le_refl 40)

/-! ## Startup migration -/

/-- Claim C10: whenever the marker content parses as an integer the marker is
deleted, even when the Gist fetch fails — in which case the processed set is
unchanged, a warning is recorded, and the backfill is never retried because a
later start finds the marker absent and leaves everything untouched; an
absent or unparsable marker leaves the processed set unchanged and deletes
nothing. -/
theorem claim_C10 : ∀ (s : String) (fetch : GistFetch) (processedLicenses : List String),
    ((parseIntJS (jsTrim s)).isSome = true →
      (runMigration (.withContent s) fetch processedLicenses).markerDeleted = true) ∧
    ((parseIntJS (jsTrim s)).isSome = true →
      runMigration (.withContent s) .failed processedLicenses =
        { processedLicenses := processedLicenses, markerDeleted := true, migrationWarned := true }) ∧
    (runMigration .absent fetch processedLicenses =
      { processedLicenses := processedLicenses, markerDeleted := false, migrationWarned := false }) ∧
    (parseIntJS (jsTrim s) = none →
      runMigration (.withContent s) fetch processedLicenses =
        { processedLicenses := processedLicenses, markerDeleted := false, migrationWarned := false }) := by
  intro s fetch processedLicenses
  refine ⟨?_, ?_, rfl, ?_⟩
  · intro h
    cases hp : parseIntJS (jsTrim s) with
    | none => rw [hp] at h; cases h
    | some n =>
      cases fetch with
      | ok content => simp [runMigration, hp]
      | failed => simp [runMigration, hp]
  · intro h
    cases hp : parseIntJS (jsTrim s) with
    | none => rw [hp] at h; cases h
    | some n => simp [runMigration, hp]
  · intro h
    simp [runMigration, h]

/-- Claim C10 witness: marker `"42"` with a failing fetch, and the unparsable
marker `"abc"`. -/
theorem claim_C10_witness :
    runMigration (.withContent "42") .failed ["x"] =
      { processedLicenses := ["x"], markerDeleted := true, migrationWarned := true } ∧
    runMigration (.withContent "abc") .failed ["x"] =
      { processedLicenses := ["x"], markerDeleted := false, migrationWarned := false } := by
  constructor
  · exact (claim_C10 "42" .failed ["x"]).2.1 (by decide)
  · exact (claim_C10 "abc" .failed ["x"]).2.2.2 (by decide)

/-! ## Claim cycle rate-limit handling -/

/-- Claim C2: a code is added to the processed list by its batch step exactly
when the agent's response body had `Success: true` and no parsed account
status contains the case-sensitive substring `RateLimitExceeded`; when some
status does contain it, the step leaves the processed list unchanged, emits
the error-severity rate-limit notification, and the batch loop continues with
the remaining codes. -/
theorem claim_C2 : ∀ (processedLicenses : List String) (code : String) (resp : AgentResponse),
    code ∉ processedLicenses →
    ((∃ p note, processCode processedLicenses code resp = .next p note ∧ code ∈ p) ↔
      ∃ result msg, resp = .ok result msg ∧ hasRateLimit result = false) ∧
    (∀ result, hasRateLimit result = true ↔
      ∃ u e, (u, e) ∈ parseASFResult result ∧ hasSub "RateLimitExceeded" e.status = true) ∧
    (∀ result msg rest, resp = .ok result msg → hasRateLimit result = true →
      processCode processedLicenses code resp = .next processedLicenses
        (.error, "Rate limit exceeded while processing package. Will retry in next run.") ∧
      runBatch processedLicenses ((code, resp) :: rest) =
        ((runBatch processedLicenses rest).1,
         (Severity.error, "Rate limit exceeded while processing package. Will retry in next run.")
           :: (runBatch processedLicenses rest).2.1,
         (runBatch processedLicenses rest).2.2)) := by
  intro processedLicenses code resp hnot
  refine ⟨?_, ?_, ?_⟩
  · constructor
    · rintro ⟨p, note, hstep, hmem⟩
      cases resp with
      | ok result msg =>
        by_cases hR : hasRateLimit result
        · simp only [processCode, hR, if_true, StepOutcome.next.injEq] at hstep
          obtain ⟨hp, _⟩ := hstep
          subst hp
          exact absurd hmem hnot
        · exact ⟨result, msg, rfl, by simpa using hR⟩
      | nonSuccess => simp [processCode] at hstep
      | transportError => simp [processCode] at hstep
    · rintro ⟨result, msg, hresp, hR⟩
      subst hresp
      refine ⟨processedLicenses ++ [code], (.success, "Processed a new package!"), ?_, ?_⟩
      · simp [processCode, hR]
      · exact List.mem_append_right _ (List.mem_singleton.mpr rfl)
  · intro result
    rw [hasRateLimit, List.any_eq_true]
    constructor
    · rintro ⟨x, hx, hpx⟩
      exact ⟨x.1, x.2, hx, hpx⟩
    · rintro ⟨u, e, hx, hpx⟩
      exact ⟨(u, e), hx, hpx⟩
  · intro result msg rest hresp hR
    subst hresp
    have hstep : processCode processedLicenses code (.ok result msg) = .next processedLicenses
        (.error, "Rate limit exceeded while processing package. Will retry in next run.") := by
      simp [processCode, hR]
    refine ⟨hstep, ?_⟩
    rw [runBatch, hstep]

/-- Claim C2 witness at a one-account rate-limited response. -/
theorem claim_C2_witness :
    processCode [] "a/1" (.ok "<bot1> RateLimitExceeded" "") = .next []
      (.error, "Rate limit exceeded while processing package. Will retry in next run.") :=
  ((claim_C2 [] "a/1" (.ok "<bot1> RateLimitExceeded" "") (by decide)).2.2
    "<bot1> RateLimitExceeded" "" [] rfl (by decide)).1

/-! ## Readiness loop -/

theorem runPhaseBGo_stillPolling (queries : Nat → QueryOutcome) :
    ∀ (fuel start : Nat), (∀ i, i < fuel → phaseBStep (queries (start + i)) = .retries 10) →
    runPhaseBGo queries start fuel = .stillPolling (start + fuel) := by
  intro fuel
  induction fuel with
  | zero => intro start _; rfl
  | succ n ih =>
    intro start h
    have h0 : phaseBStep (queries start) = .retries 10 := by
      have := h 0 (by omega)
      simpa using this
    rw [runPhaseBGo, h0]
    rw [show start + (n + 1) = start + 1 + n by omega]
    exact ih (start + 1) (fun i hi => by
      have := h (i + 1) (by omega)
      rw [show start + 1 + i = start + (i + 1) by omega]
      exact this)

theorem runPhaseBGo_raised (queries : Nat → QueryOutcome) :
    ∀ (fuel start d : Nat), (∀ i, i < d → phaseBStep (queries (start + i)) = .retries 10) →
    phaseBStep (queries (start + d)) = .raises → d < fuel →
    runPhaseBGo queries start fuel = .raised (start + d + 1) := by
  intro fuel
  induction fuel with
  | zero => intro start d _ _ h; exact absurd h (Nat.not_lt_zero d)
  | succ n ih =>
    intro start d hret hraise hd
    cases d with
    | zero =>
      have hraise' : phaseBStep (queries start) = .raises := by simpa using hraise
      rw [runPhaseBGo, hraise']
    | succ d' =>
      have h0 : phaseBStep (queries start) = .retries 10 := by
        have := hret 0 (by omega)
        simpa using this
      rw [runPhaseBGo, h0]
      rw [show start + (d' + 1) + 1 = start + 1 + d' + 1 by omega]
      exact ih (start + 1) d' (fun i hi => by
          have := hret (i + 1) (by omega)
          rw [show start + 1 + i = start + (i + 1) by omega]
          exact this)
        (by rw [show start + 1 + d' = start + (d' + 1) by omega]; exact hraise)
        (by omega)

theorem runPhaseBGo_completed (queries : Nat → QueryOutcome) :
    ∀ (fuel start k : Nat), runPhaseBGo queries start fuel = .completed k →
    start < k ∧ phaseBStep (queries (k - 1)) = .completes := by
  intro fuel
  induction fuel with
  | zero => intro start k h; cases h
  | succ n ih =>
    intro start k h
    rw [runPhaseBGo] at h
    cases hstep : phaseBStep (queries start) with
    | raises => rw [hstep] at h; cases h
    | completes =>
      rw [hstep] at h
      injection h with hk
      subst hk
      exact ⟨by omega, by simpa using hstep⟩
    | retries s =>
      rw [hstep] at h
      have := ih (start + 1) k h
      exact ⟨by omega, this.2⟩

/-- Claim C7: in the readiness phase a transport failure or a body failing
the success test raises immediately and is not retried; a successful body
whose parsed aggregate readiness is false makes the iteration sleep 10
seconds and retry, for as long as that keeps happening (the loop is still
polling after any number of such attempts); and the phase completes only at
an attempt whose parsed aggregate readiness is true. -/
theorem claim_C7 : ∀ (queries : Nat → QueryOutcome),
    (phaseBStep .transportError = .raises) ∧
    (∀ b r, (b = false ∨ r = "") → phaseBStep (.response b r) = .raises) ∧
    (∀ r, r ≠ "" → (phaseBStep (.response true r) = .retries 10 ↔ (parseASFStatus r).isDone = false)) ∧
    (∀ r, r ≠ "" → (phaseBStep (.response true r) = .completes ↔ (parseASFStatus r).isDone = true)) ∧
    (∀ n fuel, (∀ i, i < n → phaseBStep (queries i) = .retries 10) →
      phaseBStep (queries n) = .raises → n < fuel →
      runPhaseB queries fuel = .raised (n + 1)) ∧
    (∀ n, (∀ i, i < n → phaseBStep (queries i) = .retries 10) →
      runPhaseB queries n = .stillPolling n) ∧
    (∀ fuel k, runPhaseB queries fuel = .completed k →
      1 ≤ k ∧ phaseBStep (queries (k - 1)) = .completes) := by
  intro queries
  refine ⟨rfl, ?_, ?_, ?_, ?_, ?_, ?_⟩
  · rintro b r (hb | hr)
    · subst hb; simp [phaseBStep]
    · subst hr; simp [phaseBStep]
  · intro r hr
    have hr' : (r != "") = true := bne_iff_ne.mpr hr
    by_cases hd : (parseASFStatus r).isDone <;> simp [phaseBStep, hr', hd]
  · intro r hr
    have hr' : (r != "") = true := bne_iff_ne.mpr hr
    by_cases hd : (parseASFStatus r).isDone <;> simp [phaseBStep, hr', hd]
  · intro n fuel hret hraise hn
    have := runPhaseBGo_raised queries fuel 0 n (fun i hi => by simpa using hret i hi)
      (by simpa using hraise) hn
    simpa [runPhaseB] using this
  · intro n hret
    have := runPhaseBGo_stillPolling queries n 0 (fun i hi => by simpa using hret i hi)
    simpa [runPhaseB] using this
  · intro fuel k h
    have := runPhaseBGo_completed queries fuel 0 k h
    exact ⟨by omega, this.2⟩

/-- Claim C7 witness: a stub that reports both accounts still connecting for
two attempts and ready at the third, and a transport-failing stub. -/
theorem claim_C7_witness :
    runPhaseB (fun n => if n < 2 then .response true "<a> Bot is connecting to Steam network"
      else .response true "<a> Online") 2 = .stillPolling 2 ∧
    runPhaseB (fun _ => .transportError) 7 = .raised 1 ∧
    (phaseBStep (.response true "<a> Online") = .completes ↔
      (parseASFStatus "<a> Online").isDone = true) := by
  refine ⟨?_, ?_, ?_⟩
  · exact (claim_C7 (fun n => if n < 2 then .response true "<a> Bot is connecting to Steam network"
      else .response true "<a> Online")).2.2.2.2.2.1 2 (fun i hi => by
        interval_cases i <;> decide)
  · exact (claim_C7 (fun _ => .transportError)).2.2.2.2.1 0 7 (fun i hi => by omega) rfl (by omega)
  · exact (claim_C7 (fun _ => .transportError)).2.2.2.1 "<a> Online" (by decide)

/-! ## Parser claim support lemmas -/

theorem claimLineEntry_inv (line u : String) (e : ClaimEntry)
    (h : claimLineEntry line = some (u, e)) :
    ∃ oid raw, matchClaimLine line = some (u, oid, raw) ∧ e.id = oid ∧
      e.status = (if raw == "OK" then "OK -> Not available for this account" else raw) := by
  cases hm : matchClaimLine line with
  | none => rw [claimLineEntry, hm] at h; cases h
  | some t =>
    obtain ⟨u0, oid, raw⟩ := t
    rw [claimLineEntry, hm] at h
    injection h with h'
    injection h' with h1 h2
    subst h1
    subst h2
    exact ⟨oid, raw, rfl, rfl, rfl⟩

theorem statusLineEntry_inv (line u : String) (e : StatusEntry)
    (h : statusLineEntry line = some (u, e)) :
    matchStatusLine line = some (u, e.status) ∧ e.isDone = !statusConnecting e.status := by
  cases hm : matchStatusLine line with
  | none => rw [statusLineEntry, hm] at h; cases h
  | some t =>
    obtain ⟨u0, st⟩ := t
    rw [statusLineEntry, hm] at h
    simp only [Option.map_some'] at h
    injection h with h'
    injection h' with h1 h2
    subst h1
    subst h2
    exact ⟨rfl, rfl⟩

theorem claimLineEntry_user (line u : String) :
    (∃ v, claimLineEntry line = some (u, v)) ↔
      ∃ oid raw, matchClaimLine line = some (u, oid, raw) := by
  cases hm : matchClaimLine line with
  | none => simp [claimLineEntry, hm]
  | some t =>
    obtain ⟨u0, oid, raw⟩ := t
    simp only [claimLineEntry, hm, Option.some.injEq, Prod.mk.injEq]
    constructor
    · rintro ⟨v, hu, _⟩
      exact ⟨oid, raw, hu, rfl, rfl⟩
    · rintro ⟨oid', raw', hu, _, _⟩
      exact ⟨_, hu, rfl⟩

theorem statusLineEntry_user (line u : String) :
    (∃ v, statusLineEntry line = some (u, v)) ↔ ∃ st, matchStatusLine line = some (u, st) := by
  cases hm : matchStatusLine line with
  | none => simp [statusLineEntry, hm]
  | some t =>
    obtain ⟨u0, st⟩ := t
    simp only [statusLineEntry, hm, Option.map_some', Option.some.injEq, Prod.mk.injEq]
    constructor
    · rintro ⟨v, hu, _⟩
      exact ⟨st, hu, rfl⟩
    · rintro ⟨st', hu, _⟩
      exact ⟨_, hu, rfl⟩

theorem filterMap_claimLineEntry (lines : List String) :
    lines.filterMap claimLineEntry =
      (lines.filterMap matchClaimLine).map (fun t => (t.1, claimEntryOf t)) := by
  induction lines with
  | nil => rfl
  | cons line rest ih =>
    cases hm : matchClaimLine line with
    | none => simp [List.filterMap_cons, claimLineEntry, hm, ih]
    | some t =>
      obtain ⟨u0, oid, raw⟩ := t
      simp [List.filterMap_cons, claimLineEntry, hm, ih, claimEntryOf]

/-! ## Parser claims -/

/-- Claim C1: on every input, each mapping entry of `parseASFResult` comes
from a matching line; when that line's captured status is exactly the
literal `"OK"` the stored status is `"OK -> Not available for this account"`,
and any other captured status is stored unchanged. In particular the input
`"'<bot1> OK'"` parses to the single entry `bot1` with the reclassified
status. -/
theorem claim_C1 :
    parseASFResult "'<bot1> OK'" =
      [("bot1", { id := none, status := "OK -> Not available for this account" })] ∧
    ∀ (text u : String) (e : ClaimEntry), (u, e) ∈ parseASFResult text →
      ∃ line, line ∈ linesOf text ∧ ∃ oid raw, matchClaimLine line = some (u, oid, raw) ∧
        e.id = oid ∧
        ((raw = "OK" ∧ e.status = "OK -> Not available for this account") ∨
         (raw ≠ "OK" ∧ e.status = raw)) := by
  constructor
  · decide
  · intro text u e h
    rw [parseASFResult] at h
    rcases mem_insFold claimLineEntry (linesOf text) [] u e h with h' | ⟨line, hline, hentry⟩
    · cases h'
    · obtain ⟨oid, raw, hm, hid, hst⟩ := claimLineEntry_inv line u e hentry
      refine ⟨line, hline, oid, raw, hm, hid, ?_⟩
      by_cases hOK : raw = "OK"
      · exact Or.inl ⟨hOK, by simp [hst, hOK]⟩
      · exact Or.inr ⟨hOK, by simp [hst, hOK]⟩

/-- Claim C1 witness: the entry parsed from `"'<bot1> OK'"` originates in a
line whose captured raw status is `"OK"`. -/
theorem claim_C1_witness :
    ∃ line, line ∈ linesOf "'<bot1> OK'" ∧ ∃ oid raw,
      matchClaimLine line = some ("bot1", oid, raw) ∧
      (ClaimEntry.mk none "OK -> Not available for this account").id = oid ∧
      ((raw = "OK" ∧ (ClaimEntry.mk none "OK -> Not available for this account").status =
          "OK -> Not available for this account") ∨
       (raw ≠ "OK" ∧ (ClaimEntry.mk none "OK -> Not available for this account").status = raw)) :=
  claim_C1.2 "'<bot1> OK'" "bot1" ⟨none, "OK -> Not available for this account"⟩ (by decide)

/-- Claim C3 counterexample: with two matching lines for the same account —
first still connecting, then online — the final per-account ready flags are
all `true`, yet the aggregate is `false`: the aggregate is not the AND of
the per-account flags over the matched accounts, as the claim states. -/
theorem claim_C3_counterexample :
    ((parseASFStatus "<a> Bot is connecting to Steam network\n<a> Online").user.all
      (fun p => p.2.isDone)) = true ∧
    (parseASFStatus "<a> Bot is connecting to Steam network\n<a> Online").isDone = false := by
  exact ⟨by decide, by decide⟩

/-- Claim C3 (amended): a matched account's ready flag is false exactly when
its (last) status phrase matches the case-insensitive pattern
`Bot is connecting to Steam network`; the aggregate `isDone` is the AND of
the per-line ready flags over all *matching lines* (not over the final
per-account flags, which a later duplicate line may overwrite); with zero
matching lines the aggregate is vacuously true. -/
theorem claim_C3 : ∀ (text : String),
    (∀ u e, (u, e) ∈ (parseASFStatus text).user →
      e.isDone = !statusConnecting e.status ∧
      ∃ line, line ∈ linesOf text ∧ matchStatusLine line = some (u, e.status)) ∧
    ((parseASFStatus text).isDone =
      ((linesOf text).filterMap matchStatusLine).all (fun p => !statusConnecting p.2)) ∧
    (((linesOf text).filterMap matchStatusLine) = [] → (parseASFStatus text).isDone = true) := by
  intro text
  have huser : (parseASFStatus text).user = insFold statusLineEntry [] (linesOf text) :=
    parseASFStatusGo_user (linesOf text) [] true
  have hdone : (parseASFStatus text).isDone =
      ((linesOf text).filterMap matchStatusLine).all (fun p => !statusConnecting p.2) := by
    have := parseASFStatusGo_isDone (linesOf text) [] true
    simpa [parseASFStatus] using this
  refine ⟨?_, hdone, fun h => by rw [hdone, h]; rfl⟩
  intro u e hmem
  rw [huser] at hmem
  rcases mem_insFold statusLineEntry (linesOf text) [] u e hmem with h' | ⟨line, hline, hentry⟩
  · cases h'
  · obtain ⟨hm, hflag⟩ := statusLineEntry_inv line u e hentry
    exact ⟨hflag, line, hline, hm⟩

/-- Claim C3 witness: a ready account parsed from `"<a> Online"`, and the
vacuous-readiness case on a text with no matching line. -/
theorem claim_C3_witness :
    ((StatusEntry.mk "Online" true).isDone =
        !statusConnecting (StatusEntry.mk "Online" true).status ∧
      ∃ line, line ∈ linesOf "<a> Online" ∧
        matchStatusLine line = some ("a", (StatusEntry.mk "Online" true).status)) ∧
    (parseASFStatus "no matching line").isDone = true :=
  ⟨(claim_C3 "<a> Online").1 "a" ⟨"Online", true⟩ (by decide),
   (claim_C3 "no matching line").2.2 (by decide)⟩

/-- Claim C4: both parsers are total functions in this embedding (they
return a mapping for every input string), the returned mappings have no
duplicate keys, and their key sets are exactly the account names captured
from the matching lines. -/
theorem claim_C4 : ∀ (text : String),
    ((keys (parseASFResult text)).Nodup ∧
      ∀ u, u ∈ keys (parseASFResult text) ↔
        ∃ line, line ∈ linesOf text ∧ ∃ oid raw, matchClaimLine line = some (u, oid, raw)) ∧
    ((keys (parseASFStatus text).user).Nodup ∧
      ∀ u, u ∈ keys (parseASFStatus text).user ↔
        ∃ line, line ∈ linesOf text ∧ ∃ st, matchStatusLine line = some (u, st)) := by
  intro text
  have huser : (parseASFStatus text).user = insFold statusLineEntry [] (linesOf text) :=
    parseASFStatusGo_user (linesOf text) [] true
  constructor
  · constructor
    · exact keys_nodup_insFold claimLineEntry (linesOf text) [] (by simp [keys])
    · intro u
      rw [parseASFResult, mem_keys_insFold]
      simp only [keys, List.map_nil, List.not_mem_nil, false_or]
      constructor
      · rintro ⟨line, hline, v, hv⟩
        exact ⟨line, hline, (claimLineEntry_user line u).mp ⟨v, hv⟩⟩
      · rintro ⟨line, hline, oid, raw, hm⟩
        obtain ⟨v, hv⟩ := (claimLineEntry_user line u).mpr ⟨oid, raw, hm⟩
        exact ⟨line, hline, v, hv⟩
  · constructor
    · rw [huser]
      exact keys_nodup_insFold statusLineEntry (linesOf text) [] (by simp [keys])
    · intro u
      rw [huser, mem_keys_insFold]
      simp only [keys, List.map_nil, List.not_mem_nil, false_or]
      constructor
      · rintro ⟨line, hline, v, hv⟩
        exact ⟨line, hline, (statusLineEntry_user line u).mp ⟨v, hv⟩⟩
      · rintro ⟨line, hline, st, hm⟩
        obtain ⟨v, hv⟩ := (statusLineEntry_user line u).mpr ⟨st, hm⟩
        exact ⟨line, hline, v, hv⟩

/-- Claim C9: the mapping returned by `parseASFResult` has exactly one entry
per account, and the entry looked up for an account is built from the *last*
matching line carrying that account name — later lines overwrite earlier
ones — with the bare-`OK` reclassification applied to that line's captured
status. -/
theorem claim_C9 : ∀ (text u : String),
    (keys (parseASFResult text)).Nodup ∧
    lookupKey (parseASFResult text) u =
      ((((linesOf text).filterMap matchClaimLine).filter (fun t => t.1 == u)).getLast?).elim
        none (fun t => some (claimEntryOf t)) ∧
    parseASFResult "<a> X\n'<a> OK'" =
      [("a", { id := none, status := "OK -> Not available for this account" })] := by
  intro text u
  refine ⟨keys_nodup_insFold claimLineEntry (linesOf text) [] (by simp [keys]), ?_, by decide⟩
  rw [parseASFResult, lookupKey_insFold, filterMap_claimLineEntry, List.filter_map,
    List.getLast?_map]
  have hpred : ((fun p : String × ClaimEntry => p.1 == u) ∘
      (fun t : String × Option String × String => (t.1, claimEntryOf t))) =
      (fun t : String × Option String × String => t.1 == u) := by
    funext t
    rfl
  rw [hpred]
  cases hL : (((linesOf text).filterMap matchClaimLine).filter
      (fun t : String × Option String × String => t.1 == u)).getLast? with
  | none => rfl
  | some t => rfl

/-- Claim C4 witness: key characterization evaluated on a concrete response. -/
theorem claim_C4_witness :
    (keys (parseASFResult "'<bot1> OK'")).Nodup ∧
    ("bot1" ∈ keys (parseASFResult "'<bot1> OK'") ↔
      ∃ line, line ∈ linesOf "'<bot1> OK'" ∧
        ∃ oid raw, matchClaimLine line = some ("bot1", oid, raw)) :=
  ⟨(claim_C4 "'<bot1> OK'").1.1, (claim_C4 "'<bot1> OK'").1.2 "bot1"⟩

/-- Claim C8 witness: the count characterization at the concrete duplicate. -/
theorem claim_C8_witness :
    List.count "a/100" (newCodesOf ["a/100", "a/200", "a/100"] []) =
      (if List.contains [] "a/100" then 0 else List.count "a/100" ["a/100", "a/200", "a/100"]) :=
  (claim_C8 ["a/100", "a/200", "a/100"] [] "a/100").1

/-- Claim C9 witness: the last-line-wins lookup at a concrete duplicate-account
response. -/
theorem claim_C9_witness :
    lookupKey (parseASFResult "<a> X\n'<a> OK'") "a" =
      ((((linesOf "<a> X\n'<a> OK'").filterMap matchClaimLine).filter
        (fun t => t.1 == "a")).getLast?).elim none (fun t => some (claimEntryOf t)) :=
  (claim_C9 "<a> X\n'<a> OK'" "a").2.1
